import Mathlib

/-!
# MagnetDownloader (src/magnet/magnetdownloader.cpp)

A shallow embedding of `bt::MagnetDownloader`.  The object is a record of its
data members; every member function is a function from the record to the new
record together with the ordered list of calls it makes on its collaborators
(peer manager, trackers, DHT peer source, KIO, the Qt signal `foundMetadata`,
the log).  Pointers that are tested against 0 are `Option`s.
-/

namespace bt

/-- Contents of a `QByteArray`: the bytes, in order. -/
abbrev QByteArray := List Nat

/-- Value of a `bt::SHA1Hash`: the digest bytes. -/
abbrev SHA1Hash := List Nat

/-- The part of a `QUrl` the downloader looks at: its scheme, and the rest. -/
structure QUrl where
  scheme : String
  rest : String
deriving DecidableEq, Repr

/-- Data of a `bt::MagnetLink` that `MagnetDownloader` reads or writes:
`infoHash()`, `trackers()` (the member `tracker_urls`), `torrent()` and
`displayName()`. -/
structure MagnetLink where
  info_hash : SHA1Hash
  tracker_urls : List QUrl
  torrent : String
  name : String
deriving DecidableEq, Repr

/-- The two `Tracker` subclasses `start()` chooses between. -/
inductive TrackerKind where
  | udp
  | http
deriving DecidableEq, Repr

/-- A tracker object created by `start()`: which subclass, and for which url. -/
structure Tracker where
  kind : TrackerKind
  url : QUrl
deriving DecidableEq, Repr

/-- A `dht::DHTPeerSource` as constructed here: info hash, display name and the
request interval set right after construction. -/
structure DHTPeerSource where
  info_hash : SHA1Hash
  name : String
  request_interval : Nat
deriving DecidableEq, Repr

/-- A `PeerManager` as constructed here, from the torrent `tor(mlink.infoHash())`. -/
structure PeerManager where
  tor : SHA1Hash
deriving DecidableEq, Repr

/-- A `Peer` as seen by `onNewPeer`: an identity and `getStats().extension_protocol`. -/
structure Peer where
  id : Nat
  extension_protocol : Bool
deriving DecidableEq, Repr

/-- A finished `KIO::StoredTransferJob`: `error()`, `url()`, `errorString()`, `data()`. -/
structure KJob where
  error : Int
  url : String
  errorString : String
  data : QByteArray
deriving DecidableEq, Repr

/-- What `onTorrentDownloaded` reads from a loaded `Torrent`: the chain of
`TrackerTier`s (each with its `urls`, linked by `next`) and `getMetaData()`. -/
structure Torrent where
  tiers : List (List QUrl)
  metadata : QByteArray
deriving DecidableEq, Repr

/-- Functions of the library that the downloader calls and whose code is not in
this file: `SHA1Hash::generate` and `Torrent::load` (`none` when it throws). -/
structure Library where
  generate : QByteArray → SHA1Hash
  load : QByteArray → Option Torrent

/-- Data members of `MagnetDownloader`. -/
structure MagnetDownloader where
  mlink : MagnetLink
  pman : Option PeerManager
  trackers : List Tracker
  dht_ps : Option DHTPeerSource
  found : Bool
deriving DecidableEq, Repr

/-- Severity given to `Out(SYS_GEN|...)`. -/
inductive LogLevel where
  | debug
  | notice
  | important
deriving DecidableEq, Repr

/-- Calls made on collaborators, in program order. -/
inductive Effect where
  | storedGet (url : String)
  | newPeerManager (pm : PeerManager)
  | newTracker (t : Tracker)
  | trackerStart (t : Tracker)
  | trackerStop (t : Tracker)
  | trackerDelete (t : Tracker)
  | newDHTPeerSource (d : DHTPeerSource)
  | dhtStart (d : DHTPeerSource)
  | dhtStop (d : DHTPeerSource)
  | dhtDelete (d : DHTPeerSource)
  | pmanStart (pm : PeerManager) (superseed : Bool)
  | pmanStop (pm : PeerManager)
  | pmanDelete (pm : PeerManager)
  | pmanUpdate (pm : PeerManager)
  | peerKill (p : Peer)
  | connectMetadataDownloaded (p : Peer)
  | out (level : LogLevel) (msg : String)
  | foundMetadata (self : MagnetDownloader) (data : QByteArray)
  | singleShotStop
deriving DecidableEq, Repr

/-- Result of a member function: the object afterwards and the calls made. -/
abbrev Result := MagnetDownloader × List Effect

namespace MagnetDownloader

/-- Constructor: `pman(0), dht_ps(0), found(false)`, `trackers` default-constructed. -/
def create (mlink : MagnetLink) : MagnetDownloader :=
  { mlink := mlink, pman := none, trackers := [], dht_ps := none, found := false }

/-- Body of `running()`: `return pman != 0`. -/
def running (s : MagnetDownloader) : Bool :=
  s.pman.isSome

/-- The tracker object the loop of `start()` builds for one url. -/
def makeTracker (url : QUrl) : Tracker :=
  if url.scheme = "udp" then { kind := TrackerKind.udp, url := url }
  else { kind := TrackerKind.http, url := url }

/-- The DHT peer source built by `start()` and `dhtStarted()`, after
`setRequestInterval(0)`. -/
def makeDHTPeerSource (s : MagnetDownloader) : DHTPeerSource :=
  { info_hash := s.mlink.info_hash, name := s.mlink.name, request_interval := 0 }

/-- Body of `start()`; `dht_is_running` is what `dht_table.isRunning()` returns. -/
def start (dht_is_running : Bool) (s : MagnetDownloader) : Result :=
  if running s then (s, [])
  else
    let fetch : List Effect :=
      if s.mlink.torrent.isEmpty then [] else [Effect.storedGet s.mlink.torrent]
    let pm : PeerManager := { tor := s.mlink.info_hash }
    let created : List Tracker := s.mlink.tracker_urls.map makeTracker
    let trackerCalls : List Effect :=
      created.flatMap (fun t => [Effect.newTracker t, Effect.trackerStart t])
    let d := makeDHTPeerSource s
    let dhtCalls : List Effect :=
      if dht_is_running then [Effect.newDHTPeerSource d, Effect.dhtStart d] else []
    ({ s with
        pman := some pm,
        trackers := s.trackers ++ created,
        dht_ps := if dht_is_running then some d else s.dht_ps },
     fetch ++ [Effect.newPeerManager pm] ++ trackerCalls ++ dhtCalls
       ++ [Effect.pmanStart pm false])

/-- Body of `stop()`. -/
def stop (s : MagnetDownloader) : Result :=
  match s.pman with
  | none => (s, [])
  | some pm =>
    let trackerCalls : List Effect :=
      s.trackers.flatMap (fun t => [Effect.trackerStop t, Effect.trackerDelete t])
    let dhtCalls : List Effect :=
      match s.dht_ps with
      | some d => [Effect.dhtStop d, Effect.dhtDelete d]
      | none => []
    ({ s with pman := none, trackers := [], dht_ps := none },
     trackerCalls ++ dhtCalls ++ [Effect.pmanStop pm, Effect.pmanDelete pm])

/-- Body of `update()`. -/
def update (s : MagnetDownloader) : Result :=
  match s.pman with
  | some pm => (s, [Effect.pmanUpdate pm])
  | none => (s, [])

/-- Body of `onNewPeer(Peer* p)`. -/
def onNewPeer (p : Peer) (s : MagnetDownloader) : Result :=
  if !p.extension_protocol then (s, [Effect.peerKill p])
  else (s, [Effect.connectMetadataDownloaded p])

/-- Body of `onMetadataDownloaded(const QByteArray& data)`. -/
def onMetadataDownloaded (lib : Library) (data : QByteArray) (s : MagnetDownloader) : Result :=
  if s.found then (s, [])
  else if lib.generate data ≠ s.mlink.info_hash then
    (s, [Effect.out LogLevel.notice "Metadata downloaded, but hash check failed"])
  else
    let s1 := { s with found := true }
    (s1, [Effect.out LogLevel.important "Metadata downloaded",
          Effect.foundMetadata s1 data,
          Effect.singleShotStop])

/-- The loop of `onTorrentDownloaded` over the tracker tiers:
`while (tier) { mlink.tracker_urls.append(tier->urls); tier = tier->next; }`. -/
def appendTiers : List (List QUrl) → MagnetLink → MagnetLink
  | [], m => m
  | urls :: next, m => appendTiers next { m with tracker_urls := m.tracker_urls ++ urls }

/-- Body of `onTorrentDownloaded(KJob* job)`; a null `job` is `none`. -/
def onTorrentDownloaded (lib : Library) (job : Option KJob) (s : MagnetDownloader) : Result :=
  match job with
  | none => (s, [])
  | some stj =>
    if stj.error ≠ 0 then
      (s, [Effect.out LogLevel.debug
            ("Failed to download " ++ stj.url ++ ": " ++ stj.errorString)])
    else
      match lib.load stj.data with
      | none =>
        (s, [Effect.out LogLevel.notice ("Invalid torrent file from " ++ s.mlink.torrent)])
      | some tor =>
        onMetadataDownloaded lib tor.metadata { s with mlink := appendTiers tor.tiers s.mlink }

/-- Body of `dhtStarted()`. -/
def dhtStarted (s : MagnetDownloader) : Result :=
  if running s && !s.dht_ps.isSome then
    let d := makeDHTPeerSource s
    ({ s with dht_ps := some d }, [Effect.newDHTPeerSource d, Effect.dhtStart d])
  else (s, [])

/-- Body of `dhtStopped()`. -/
def dhtStopped (s : MagnetDownloader) : Result :=
  match running s, s.dht_ps with
  | true, some d => ({ s with dht_ps := none }, [Effect.dhtStop d, Effect.dhtDelete d])
  | _, _ => (s, [])

/-- Member functions and slots that can be invoked on the object.  `start`
carries the value `dht_table.isRunning()` has when it is called. -/
inductive Op where
  | start (dht_is_running : Bool)
  | stop
  | update
  | onNewPeer (p : Peer)
  | onMetadataDownloaded (data : QByteArray)
  | onTorrentDownloaded (job : Option KJob)
  | dhtStarted
  | dhtStopped
deriving DecidableEq, Repr

/-- Invoke one member function. -/
def handle (lib : Library) : Op → MagnetDownloader → Result
  | Op.start b, s => start b s
  | Op.stop, s => stop s
  | Op.update, s => update s
  | Op.onNewPeer p, s => onNewPeer p s
  | Op.onMetadataDownloaded d, s => onMetadataDownloaded lib d s
  | Op.onTorrentDownloaded j, s => onTorrentDownloaded lib j s
  | Op.dhtStarted, s => dhtStarted s
  | Op.dhtStopped, s => dhtStopped s

/-- Invoke a sequence of member functions one after the other (the event loop
delivers them one at a time), collecting the calls made in order. -/
def run (lib : Library) : List Op → MagnetDownloader → Result
  | [], s => (s, [])
  | o :: os, s =>
    let r := handle lib o s
    let r2 := run lib os r.1
    (r2.1, r.2 ++ r2.2)

/-- Call `stop()` `n` times in a row. -/
def stopTimes : Nat → MagnetDownloader → Result
  | 0, s => (s, [])
  | n + 1, s =>
    let r := stop s
    let r2 := stopTimes n r.1
    (r2.1, r.2 ++ r2.2)

/-- Deliver `dhtStarted` `n` times in a row. -/
def dhtStartedTimes : Nat → MagnetDownloader → Result
  | 0, s => (s, [])
  | n + 1, s =>
    let r := dhtStarted s
    let r2 := dhtStartedTimes n r.1
    (r2.1, r.2 ++ r2.2)

end MagnetDownloader

/-- Payloads of the `foundMetadata` signals among the calls, in order. -/
def emitted (es : List Effect) : List QByteArray :=
  es.filterMap (fun e =>
    match e with
    | Effect.foundMetadata _ d => some d
    | _ => none)

/-- Number of `QTimer::singleShot(0,this,SLOT(stop()))` calls among the calls. -/
def scheduledStops (es : List Effect) : Nat :=
  es.count Effect.singleShotStop

/-- A completed delivery of metadata to the session: a peer emitting
`metadataDownloaded(data)`, or the KIO job of the fallback torrent file
finishing. -/
inductive Delivery where
  | peer (data : QByteArray)
  | fallback (job : KJob)
deriving DecidableEq, Repr

/-- The slot invocation a delivery amounts to. -/
def Delivery.toOp : Delivery → MagnetDownloader.Op
  | Delivery.peer d => MagnetDownloader.Op.onMetadataDownloaded d
  | Delivery.fallback j => MagnetDownloader.Op.onTorrentDownloaded (some j)

/-- The metadata payload a delivery carries: the peer's bytes, or the metadata
of the fetched file when the fetch had no error and the file loads. -/
def Delivery.payload (lib : Library) : Delivery → Option QByteArray
  | Delivery.peer d => some d
  | Delivery.fallback j =>
    if j.error ≠ 0 then none else (lib.load j.data).map Torrent.metadata

/-- The session together with the process-wide DHT table it observes:
`dht_running` is `Globals::instance().getDHT().isRunning()`. -/
structure World where
  dht_running : Bool
  session : MagnetDownloader
deriving DecidableEq, Repr

/-- What can happen to a session and the table: a member function or slot of
the session is invoked, or the table starts (its flag becomes true and it emits
`started()`), or the table stops (its flag becomes false and it emits
`stopped()`). -/
inductive WorldStep where
  | start
  | stop
  | update
  | onNewPeer (p : Peer)
  | onMetadataDownloaded (data : QByteArray)
  | onTorrentDownloaded (job : Option KJob)
  | tableStarted
  | tableStopped
deriving DecidableEq, Repr

/-- The member function or slot a step invokes on the session; `start` reads
the table's flag, and the table's `started()` and `stopped()` signals reach the
slots `dhtStarted()` and `dhtStopped()`. -/
def WorldStep.toOp (dht_running : Bool) : WorldStep → MagnetDownloader.Op
  | WorldStep.start => MagnetDownloader.Op.start dht_running
  | WorldStep.stop => MagnetDownloader.Op.stop
  | WorldStep.update => MagnetDownloader.Op.update
  | WorldStep.onNewPeer p => MagnetDownloader.Op.onNewPeer p
  | WorldStep.onMetadataDownloaded d => MagnetDownloader.Op.onMetadataDownloaded d
  | WorldStep.onTorrentDownloaded j => MagnetDownloader.Op.onTorrentDownloaded j
  | WorldStep.tableStarted => MagnetDownloader.Op.dhtStarted
  | WorldStep.tableStopped => MagnetDownloader.Op.dhtStopped

/-- The table's running flag after a step. -/
def WorldStep.table (dht_running : Bool) : WorldStep → Bool
  | WorldStep.tableStarted => true
  | WorldStep.tableStopped => false
  | _ => dht_running

/-- One step of the session and the table. -/
def World.step (lib : Library) (st : WorldStep) (w : World) : World :=
  { dht_running := st.table w.dht_running,
    session := (MagnetDownloader.handle lib (st.toOp w.dht_running) w.session).1 }

/-- A sequence of steps, first to last. -/
def World.run (lib : Library) : List WorldStep → World → World
  | [], w => w
  | st :: sts, w => World.run lib sts (World.step lib st w)

/-- Invariant of the session: when it is not running it has no tracker and no
DHT peer source. -/
def NoChannelUnlessRunning (s : MagnetDownloader) : Prop :=
  MagnetDownloader.running s = false → s.trackers = [] ∧ s.dht_ps = none

instance (s : MagnetDownloader) : Decidable (NoChannelUnlessRunning s) := by
  unfold NoChannelUnlessRunning
  infer_instance

/-- Invariant of the session and the table: a running session has a DHT peer
source exactly when the table runs. -/
def ChannelTracksTable (w : World) : Prop :=
  MagnetDownloader.running w.session = true → w.session.dht_ps.isSome = w.dht_running

instance (w : World) : Decidable (ChannelTracksTable w) := by
  unfold ChannelTracksTable
  infer_instance

/-- A small library for worked examples: the digest of a payload is its byte sum
modulo 256; a file loads when its first byte is 1, its metadata being the
remaining bytes and its trackers one tier with one udp url. -/
def exampleLibrary : Library where
  generate := fun d => [d.sum % 256]
  load := fun data =>
    match data with
    | 1 :: m => some { tiers := [[{ scheme := "udp", rest := "//t3" }]], metadata := m }
    | _ => none

/-- Magnet link of the worked examples: info hash `[6]` (the digest of `[1,2,3]`),
trackers `udp://t1` and `http://t2`, a fallback torrent url. -/
def exampleLink : MagnetLink :=
  { info_hash := [6],
    tracker_urls := [{ scheme := "udp", rest := "//t1" }, { scheme := "http", rest := "//t2" }],
    torrent := "http://host/file.torrent",
    name := "example" }

/-- A freshly constructed session for `exampleLink`. -/
def exampleSession : MagnetDownloader := MagnetDownloader.create exampleLink

/-- The example session after `start()` with the DHT table not running. -/
def exampleRunning : MagnetDownloader := (MagnetDownloader.start false exampleSession).1

/-- Deliveries none of which carries the example metadata: a peer payload, a
well-formed fallback file with other metadata, a failed fetch, a file that does
not load. -/
def exampleDeliveries : List Delivery :=
  [Delivery.peer [9],
   Delivery.fallback { error := 0, url := "http://host/file.torrent", errorString := "",
                       data := [1, 7, 7] },
   Delivery.fallback { error := 111, url := "http://host/file.torrent",
                       errorString := "timeout", data := [] },
   Delivery.fallback { error := 0, url := "http://host/file.torrent", errorString := "",
                       data := [0, 1, 2, 3] }]

/-- Steps of the session and the table used as a worked example. -/
def exampleSteps : List WorldStep :=
  [WorldStep.start, WorldStep.tableStarted,
   WorldStep.onNewPeer { id := 1, extension_protocol := true },
   WorldStep.tableStopped, WorldStep.tableStarted]

/-- Member functions and slots used as a worked example, ending in `stop()`. -/
def exampleOps : List MagnetDownloader.Op :=
  [MagnetDownloader.Op.start true, MagnetDownloader.Op.dhtStopped,
   MagnetDownloader.Op.dhtStarted, MagnetDownloader.Op.onMetadataDownloaded [1, 2, 3],
   MagnetDownloader.Op.stop]

/-- A finished fallback fetch whose file loads with metadata `[1,2,3]`. -/
def exampleJob : KJob :=
  { error := 0, url := "http://host/file.torrent", errorString := "", data := [1, 1, 2, 3] }

/-- Body of `bytesDownloaded() const`: the value returned and the object, which
a const member leaves as it is. -/
def MagnetDownloader.bytesDownloaded (s : MagnetDownloader) : Nat × MagnetDownloader :=
  (0, s)

/-- Body of `bytesUploaded() const`. -/
def MagnetDownloader.bytesUploaded (s : MagnetDownloader) : Nat × MagnetDownloader :=
  (0, s)

/-- Body of `bytesLeft() const`. -/
def MagnetDownloader.bytesLeft (s : MagnetDownloader) : Nat × MagnetDownloader :=
  (0, s)

/-- Body of `isPartialSeed() const`. -/
def MagnetDownloader.isPartialSeed (s : MagnetDownloader) : Bool × MagnetDownloader :=
  (false, s)

/-- The tracker of a `new UDPTracker` or `new HTTPTracker` call. -/
def Effect.newTracker? : Effect → Option Tracker
  | Effect.newTracker t => some t
  | _ => none

/-- The tracker of a `tracker->start()` call. -/
def Effect.trackerStart? : Effect → Option Tracker
  | Effect.trackerStart t => some t
  | _ => none

/-- The tracker of a `tracker->stop()` call. -/
def Effect.trackerStop? : Effect → Option Tracker
  | Effect.trackerStop t => some t
  | _ => none

/-- The tracker of a `delete tracker`. -/
def Effect.trackerDelete? : Effect → Option Tracker
  | Effect.trackerDelete t => some t
  | _ => none

/-- The peer source of a `new dht::DHTPeerSource` call. -/
def Effect.newDHTPeerSource? : Effect → Option DHTPeerSource
  | Effect.newDHTPeerSource d => some d
  | _ => none

/-- The peer source of a `dht_ps->start()` call. -/
def Effect.dhtStart? : Effect → Option DHTPeerSource
  | Effect.dhtStart d => some d
  | _ => none

/-- The peer source of a `dht_ps->stop()` call. -/
def Effect.dhtStop? : Effect → Option DHTPeerSource
  | Effect.dhtStop d => some d
  | _ => none

/-- The peer source of a `delete dht_ps`. -/
def Effect.dhtDelete? : Effect → Option DHTPeerSource
  | Effect.dhtDelete d => some d
  | _ => none

/-- The url of a `KIO::storedGet` call. -/
def Effect.storedGet? : Effect → Option String
  | Effect.storedGet u => some u
  | _ => none

/-- The peer manager of a `pman->stop()` call. -/
def Effect.pmanStop? : Effect → Option PeerManager
  | Effect.pmanStop pm => some pm
  | _ => none

/-- The peer manager of a `delete pman`. -/
def Effect.pmanDelete? : Effect → Option PeerManager
  | Effect.pmanDelete pm => some pm
  | _ => none

/-- The example session after `start()` and then `stop()`. -/
def exampleStopped : MagnetDownloader := (MagnetDownloader.stop exampleRunning).1

/-! ### File (src/util/file.cpp) -/

/-- Data members of `bt::File`: the name given to `open` and the `FILE*`
(`none` for 0). -/
structure File where
  file : String
  fptr : Option Nat
deriving DecidableEq, Repr

/-- What the C library does at one `fwrite(buf,1,size,fptr)`: the number of
bytes it stored, which is the `size_t` it returns, and `errno` afterwards. -/
structure Fwrite where
  stored : Nat
  errno : Int
deriving DecidableEq, Repr

/-- Constant and function of the C library named in `File::write`. -/
structure Libc where
  ENOSPC : Int
  strerror : Int → String

/-- A thrown `bt::Error` with its message. -/
structure Error where
  msg : String
deriving DecidableEq, Repr

/-- Calls `File::write` makes, in program order. -/
inductive FileCall where
  | fwrite (stream : Nat) (buf : List Nat) (size : Nat)
  | out (level : LogLevel) (msg : String)
deriving DecidableEq, Repr

/-- Body of `File::write(const void* buf,Uint32 size)`: the value returned or
the `Error` thrown, and the calls made.  `w` is what `fwrite` does when called;
its `size_t` result is stored in the `Uint32 ret`. -/
def File.write (c : Libc) (f : File) (buf : List Nat) (size : Nat) (w : Fwrite) :
    Except Error Nat × List FileCall :=
  match f.fptr with
  | none => (Except.ok 0, [])
  | some fp =>
    let ret := w.stored % 2 ^ 32
    if ret ≠ size then
      (Except.error { msg := "Cannot write to " ++ f.file ++ ": " ++ c.strerror w.errno },
       [FileCall.fwrite fp buf size]
         ++ (if w.errno = c.ENOSPC then [FileCall.out LogLevel.important "Disk full !"]
             else []))
    else (Except.ok ret, [FileCall.fwrite fp buf size])

/-- A C library for worked examples: `ENOSPC` is 28. -/
def exampleLibc : Libc where
  ENOSPC := 28
  strerror := fun e => if e = 28 then "No space left on device" else "Input/output error"

/-- An open file for worked examples. -/
def exampleFile : File := { file := "/tmp/chunk", fptr := some 3 }

/-- A write that stores all four requested bytes. -/
def exampleFwrite : Fwrite := { stored := 4, errno := 0 }

/-- A fallback fetch that ended with a transport error. -/
def exampleFailedJob : KJob :=
  { error := 111, url := "http://host/file.torrent", errorString := "timeout", data := [] }

end bt

namespace bt

open MagnetDownloader

/-! ## Helper lemmas -/

theorem emitted_append (a b : List Effect) : emitted (a ++ b) = emitted a ++ emitted b := by
  simp [emitted, List.filterMap_append]

theorem scheduledStops_append (a b : List Effect) :
    scheduledStops (a ++ b) = scheduledStops a + scheduledStops b := by
  simp [scheduledStops, List.count_append]

theorem onMetadataDownloaded_of_found (lib : Library) (d : QByteArray) (s : MagnetDownloader)
    (h : s.found = true) : onMetadataDownloaded lib d s = (s, []) := by
  simp [onMetadataDownloaded, h]

theorem onMetadataDownloaded_of_mismatch (lib : Library) (d : QByteArray) (s : MagnetDownloader)
    (hf : s.found = false) (h : lib.generate d ≠ s.mlink.info_hash) :
    onMetadataDownloaded lib d s
      = (s, [Effect.out LogLevel.notice "Metadata downloaded, but hash check failed"]) := by
  simp [onMetadataDownloaded, hf, h]

theorem onMetadataDownloaded_of_match (lib : Library) (d : QByteArray) (s : MagnetDownloader)
    (hf : s.found = false) (h : lib.generate d = s.mlink.info_hash) :
    onMetadataDownloaded lib d s
      = ({ s with found := true },
         [Effect.out LogLevel.important "Metadata downloaded",
          Effect.foundMetadata { s with found := true } d,
          Effect.singleShotStop]) := by
  simp [onMetadataDownloaded, hf, h]

theorem run_cons (lib : Library) (o : Op) (os : List Op) (s : MagnetDownloader) :
    run lib (o :: os) s
      = ((run lib os (handle lib o s).1).1,
         (handle lib o s).2 ++ (run lib os (handle lib o s).1).2) :=
  rfl

theorem run_deliveries_of_found (lib : Library) (ps : List QByteArray) (s : MagnetDownloader)
    (h : s.found = true) : run lib (ps.map Op.onMetadataDownloaded) s = (s, []) := by
  induction ps with
  | nil => rfl
  | cons p ps ih =>
    simp [run_cons, handle, onMetadataDownloaded_of_found lib p s h, ih]

theorem emitted_startCalls (ts : List Tracker) :
    emitted (ts.flatMap (fun t => [Effect.newTracker t, Effect.trackerStart t])) = [] := by
  induction ts with
  | nil => rfl
  | cons t ts ih => simpa [emitted, List.flatMap_cons] using ih

theorem emitted_stopCalls (ts : List Tracker) :
    emitted (ts.flatMap (fun t => [Effect.trackerStop t, Effect.trackerDelete t])) = [] := by
  induction ts with
  | nil => rfl
  | cons t ts ih => simpa [emitted, List.flatMap_cons] using ih

theorem start_emitted (b : Bool) (s : MagnetDownloader) :
    emitted (start b s).2 = [] ∧ (start b s).1.found = s.found := by
  unfold start
  split
  · exact ⟨rfl, rfl⟩
  · refine ⟨?_, rfl⟩
    simp only [emitted_append, emitted_startCalls]
    cases b <;> split <;> simp [emitted]

theorem stop_emitted (s : MagnetDownloader) :
    emitted (stop s).2 = [] ∧ (stop s).1.found = s.found := by
  unfold stop
  split
  · exact ⟨rfl, rfl⟩
  · refine ⟨?_, rfl⟩
    simp only [emitted_append, emitted_stopCalls]
    split <;> simp [emitted]

theorem step_budget (lib : Library) (o : Op) (s : MagnetDownloader) :
    (emitted (handle lib o s).2).length + cond (handle lib o s).1.found 0 1
      ≤ cond s.found 0 1 := by
  cases o with
  | start b => simp [handle, start_emitted]
  | stop => simp [handle, stop_emitted]
  | update => simp only [handle, update]; split <;> simp [emitted]
  | onNewPeer p => simp only [handle, onNewPeer]; split <;> simp [emitted]
  | onMetadataDownloaded d =>
    simp only [handle, onMetadataDownloaded]
    split
    · simp [emitted]
    · split <;> simp [emitted, *]
  | onTorrentDownloaded j =>
    simp only [handle, onTorrentDownloaded]
    split
    · simp [emitted]
    · split
      · simp [emitted]
      · split
        · simp [emitted]
        · simp only [onMetadataDownloaded]
          split
          · simp_all [emitted]
          · split <;> simp_all [emitted]
  | dhtStarted => simp only [handle, dhtStarted]; split <;> simp [emitted]
  | dhtStopped => simp only [handle, dhtStopped]; split <;> simp [emitted]

theorem run_budget (lib : Library) (os : List Op) (s : MagnetDownloader) :
    (emitted (run lib os s).2).length + cond (run lib os s).1.found 0 1
      ≤ cond s.found 0 1 := by
  induction os generalizing s with
  | nil => simp [run, emitted]
  | cons o os ih =>
    rw [run_cons]
    simp only [emitted_append, List.length_append]
    have h1 := step_budget lib o s
    have h2 := ih (handle lib o s).1
    omega

/-! ## Claims -/

/-- C1: for a session whose `found` flag is unset and payloads `ps` delivered in
order to `onMetadataDownloaded`, if position `i` is the only one whose hash
equals the info hash, then the `foundMetadata` signal is emitted exactly once
over the whole sequence and it carries `ps[i]`; `i` and the other payloads are
arbitrary. -/
theorem foundMetadata_once_for_single_match (lib : Library) (ps : List QByteArray)
    (s : MagnetDownloader) (i : Nat) (hi : i < ps.length)
    (hf : s.found = false)
    (hm : lib.generate (ps.get ⟨i, hi⟩) = s.mlink.info_hash)
    (hu : ∀ (j : Nat) (hj : j < ps.length),
      lib.generate (ps.get ⟨j, hj⟩) = s.mlink.info_hash → j = i) :
    emitted (run lib (ps.map Op.onMetadataDownloaded) s).2 = [ps.get ⟨i, hi⟩] := by
  induction ps generalizing i with
  | nil => simp at hi
  | cons p ps ih =>
    cases i with
    | zero =>
      have hp : lib.generate p = s.mlink.info_hash := by simpa using hm
      simp only [List.map_cons, run_cons, handle]
      rw [onMetadataDownloaded_of_match lib p s hf hp]
      rw [run_deliveries_of_found lib ps _ rfl]
      simp [emitted]
    | succ k =>
      have hk : k < ps.length := by simpa using hi
      have hp : lib.generate p ≠ s.mlink.info_hash := by
        intro hp
        have := hu 0 (by simp) (by simpa using hp)
        omega
      simp only [List.map_cons, run_cons, handle]
      rw [onMetadataDownloaded_of_mismatch lib p s hf hp]
      rw [emitted_append]
      have hrec := ih k hk (by simpa using hm) (by
        intro j hj h
        have := hu (j + 1) (by simpa using hj) (by simpa using h)
        omega)
      simpa [emitted] using hrec

/-- Witness for C1: payloads `[1]`, `[1,2,3]`, `[9]` delivered to the example
session, of which only the second has digest `[6]`. -/
theorem foundMetadata_once_for_single_match_witness :
    emitted (run exampleLibrary
      ([[1], [1, 2, 3], [9]].map Op.onMetadataDownloaded) exampleSession).2 = [[1, 2, 3]] :=
  foundMetadata_once_for_single_match exampleLibrary [[1], [1, 2, 3], [9]] exampleSession 1
    (by decide) rfl (by decide) (by decide)

/-- C2: from construction, whatever member functions and slots are invoked on
a session, in any order and number (`start` with any state of the DHT table,
`stop`, `update`, `onNewPeer`, `onMetadataDownloaded`, `onTorrentDownloaded`,
`dhtStarted`, `dhtStopped`), the signal `foundMetadata` is emitted at most once. -/
theorem foundMetadata_at_most_once (lib : Library) (mlink : MagnetLink) (os : List Op) :
    (emitted (run lib os (create mlink)).2).length ≤ 1 := by
  have h := run_budget lib os (create mlink)
  have hc : cond (create mlink).found 0 1 = 1 := rfl
  omega

theorem stop_of_not_running (s : MagnetDownloader) (h : running s = false) :
    stop s = (s, []) := by
  unfold stop
  cases hp : s.pman with
  | none => rfl
  | some pm => simp [running, hp] at h

theorem stop_not_running (s : MagnetDownloader) : running (stop s).1 = false := by
  unfold stop
  cases hp : s.pman with
  | none => simp [running, hp]
  | some pm => simp [running]

theorem appendTiers_info_hash (ts : List (List QUrl)) (m : MagnetLink) :
    (appendTiers ts m).info_hash = m.info_hash := by
  induction ts generalizing m with
  | nil => rfl
  | cons urls next ih => simp [appendTiers, ih]

theorem onTorrentDownloaded_of_loaded (lib : Library) (j : KJob) (s : MagnetDownloader)
    (tor : Torrent) (he : j.error = 0) (hl : lib.load j.data = some tor) :
    onTorrentDownloaded lib (some j) s
      = onMetadataDownloaded lib tor.metadata
          { s with mlink := appendTiers tor.tiers s.mlink } := by
  simp [onTorrentDownloaded, he, hl]

theorem delivery_of_no_match (lib : Library) (d : Delivery) (s : MagnetDownloader)
    (hf : s.found = false)
    (hn : ∀ m, Delivery.payload lib d = some m → lib.generate m ≠ s.mlink.info_hash) :
    emitted (handle lib d.toOp s).2 = [] ∧ scheduledStops (handle lib d.toOp s).2 = 0
      ∧ (handle lib d.toOp s).1.found = false
      ∧ (handle lib d.toOp s).1.mlink.info_hash = s.mlink.info_hash
      ∧ (handle lib d.toOp s).1.trackers = s.trackers
      ∧ (handle lib d.toOp s).1.dht_ps = s.dht_ps
      ∧ (handle lib d.toOp s).1.pman = s.pman := by
  cases d with
  | peer data =>
    have h := hn data rfl
    simp only [Delivery.toOp, handle]
    rw [onMetadataDownloaded_of_mismatch lib data s hf h]
    simp [emitted, scheduledStops, hf]
  | fallback j =>
    simp only [Delivery.toOp, handle]
    by_cases he : j.error = 0
    · cases hl : lib.load j.data with
      | none => simp [onTorrentDownloaded, hl, he, emitted, scheduledStops, hf]
      | some tor =>
        have h := hn tor.metadata (by simp [Delivery.payload, he, hl])
        have hi : (appendTiers tor.tiers s.mlink).info_hash = s.mlink.info_hash :=
          appendTiers_info_hash tor.tiers s.mlink
        rw [onTorrentDownloaded_of_loaded lib j s tor he hl]
        have key := onMetadataDownloaded_of_mismatch lib tor.metadata
          { s with mlink := appendTiers tor.tiers s.mlink } hf (by simpa [hi] using h)
        rw [key]
        simp [emitted, scheduledStops, hf, hi]
    · simp [onTorrentDownloaded, he, emitted, scheduledStops, hf]

/-- C3: for a session in the Running state (peer manager present, `found`
unset) and any sequence of deliveries, from peers or from fetched fallback
files, none of whose payload hashes to the info hash: no `foundMetadata` is
emitted, no `stop()` is scheduled, and afterwards the session is still running
with `found` unset and the same trackers, DHT peer source and peer manager. -/
theorem no_match_session_stays_running (lib : Library) (ds : List Delivery)
    (s : MagnetDownloader) (hr : running s = true) (hf : s.found = false)
    (hn : ∀ d ∈ ds, ∀ m, Delivery.payload lib d = some m →
      lib.generate m ≠ s.mlink.info_hash) :
    emitted (run lib (ds.map Delivery.toOp) s).2 = []
      ∧ scheduledStops (run lib (ds.map Delivery.toOp) s).2 = 0
      ∧ running (run lib (ds.map Delivery.toOp) s).1 = true
      ∧ (run lib (ds.map Delivery.toOp) s).1.found = false
      ∧ (run lib (ds.map Delivery.toOp) s).1.trackers = s.trackers
      ∧ (run lib (ds.map Delivery.toOp) s).1.dht_ps = s.dht_ps
      ∧ (run lib (ds.map Delivery.toOp) s).1.pman = s.pman := by
  induction ds generalizing s with
  | nil => simp [run, emitted, scheduledStops, hr, hf]
  | cons d ds ih =>
    obtain ⟨h1, h2, h3, h4, h5, h6, h7⟩ :=
      delivery_of_no_match lib d s hf (hn d (List.mem_cons_self d ds))
    have hr1 : running (handle lib d.toOp s).1 = true := by
      simpa [running, h7] using hr
    obtain ⟨k1, k2, k3, k4, k5, k6, k7⟩ := ih (handle lib d.toOp s).1 hr1 h3 (by
      intro d1 hd1 m hm
      rw [h4]
      exact hn d1 (List.mem_cons_of_mem d hd1) m hm)
    simp only [List.map_cons, run_cons, emitted_append, scheduledStops_append]
    refine ⟨by simp [h1, k1], by simp [h2, k2], k3, k4, ?_, ?_, ?_⟩
    · rw [k5, h5]
    · rw [k6, h6]
    · rw [k7, h7]

/-- Witness for C3: the running example session receives a mismatching peer
payload, a well-formed fallback file with mismatching metadata, a failed fetch
and a file that does not load. -/
theorem no_match_session_stays_running_witness :
    emitted (run exampleLibrary (exampleDeliveries.map Delivery.toOp) exampleRunning).2 = []
      ∧ scheduledStops
          (run exampleLibrary (exampleDeliveries.map Delivery.toOp) exampleRunning).2 = 0
      ∧ running (run exampleLibrary (exampleDeliveries.map Delivery.toOp) exampleRunning).1 = true
      ∧ (run exampleLibrary (exampleDeliveries.map Delivery.toOp) exampleRunning).1.found = false
      ∧ (run exampleLibrary (exampleDeliveries.map Delivery.toOp) exampleRunning).1.trackers
          = exampleRunning.trackers
      ∧ (run exampleLibrary (exampleDeliveries.map Delivery.toOp) exampleRunning).1.dht_ps
          = exampleRunning.dht_ps
      ∧ (run exampleLibrary (exampleDeliveries.map Delivery.toOp) exampleRunning).1.pman
          = exampleRunning.pman :=
  no_match_session_stays_running exampleLibrary exampleDeliveries exampleRunning
    (by decide) (by decide) (by
      intro d hd m hm
      simp only [exampleDeliveries, List.mem_cons, List.mem_singleton, List.not_mem_nil,
        or_false] at hd
      rcases hd with rfl | rfl | rfl | rfl
      · simp only [Delivery.payload, Option.some.injEq] at hm
        subst hm
        decide
      · simp [Delivery.payload, exampleLibrary] at hm
        subst hm
        decide
      · simp [Delivery.payload] at hm
      · simp [Delivery.payload, exampleLibrary] at hm)

theorem stopTimes_of_not_running (n : Nat) (s : MagnetDownloader) (h : running s = false) :
    stopTimes n s = (s, []) := by
  induction n with
  | zero => rfl
  | succ n ih => simp [stopTimes, stop_of_not_running s h, ih]

/-- C4: `stop()` is idempotent: after one `stop()`, calling `stop()` `n + 1`
more times leaves the object exactly as the single `stop()` left it, and those
further calls make no call at all on a tracker, the DHT peer source or the peer
manager. -/
theorem stop_idempotent (s : MagnetDownloader) (n : Nat) :
    (stopTimes (n + 1) (stop s).1).1 = (stop s).1
      ∧ (stopTimes (n + 1) (stop s).1).2 = [] := by
  rw [stopTimes_of_not_running (n + 1) (stop s).1 (stop_not_running s)]
  exact ⟨rfl, rfl⟩

theorem start_of_running (b : Bool) (s : MagnetDownloader) (h : running s = true) :
    start b s = (s, []) := by
  simp [start, h]

theorem start_running (b : Bool) (s : MagnetDownloader) : running (start b s).1 = true := by
  unfold start
  split
  · assumption
  · rfl

theorem stop_of_running (s : MagnetDownloader) (h : running s = true) :
    (stop s).1 = { s with pman := none, trackers := [], dht_ps := none } := by
  unfold stop
  cases hp : s.pman with
  | none => simp [running, hp] at h
  | some pm => rfl

/-- C5, counterexample: the example session is started, stopped and started
again.  After the stop it is not running; the further `start()` is not a no-op:
the session is running again, both trackers and a peer manager are created, the
fallback fetch is issued, and with the table running a DHT peer source is
created. -/
theorem start_after_stop_is_not_a_no_op :
    running (stop (start false exampleSession).1).1 = false
      ∧ running (start false (stop (start false exampleSession).1).1).1 = true
      ∧ (start false (stop (start false exampleSession).1).1).1.trackers
          = [{ kind := TrackerKind.udp, url := { scheme := "udp", rest := "//t1" } },
             { kind := TrackerKind.http, url := { scheme := "http", rest := "//t2" } }]
      ∧ Effect.newPeerManager { tor := [6] }
          ∈ (start false (stop (start false exampleSession).1).1).2
      ∧ Effect.storedGet "http://host/file.torrent"
          ∈ (start false (stop (start false exampleSession).1).1).2
      ∧ (start true (stop (start false exampleSession).1).1).1.dht_ps
          = some { info_hash := [6], name := "example", request_interval := 0 }
      ∧ start false (stop (start false exampleSession).1).1
          ≠ ((stop (start false exampleSession).1).1, []) := by
  decide

/-- C5, amended: for every session that has been started and then stopped, a
further `start()` runs the whole start sequence again: the session is running
again with a new peer manager, one tracker per hint url in hint order, a DHT
peer source exactly when the table is running, and the fallback fetch is issued
exactly when the torrent url is non-empty; only `start()` on a running session
is a no-op. -/
theorem start_after_stop_starts_again (b1 b2 : Bool) (s : MagnetDownloader) :
    running (stop (start b1 s).1).1 = false
      ∧ start b2 (stop (start b1 s).1).1
          = ({ s with
                pman := some { tor := s.mlink.info_hash },
                trackers := s.mlink.tracker_urls.map makeTracker,
                dht_ps := if b2 then some (makeDHTPeerSource s) else none },
             (if s.mlink.torrent.isEmpty then [] else [Effect.storedGet s.mlink.torrent])
               ++ [Effect.newPeerManager { tor := s.mlink.info_hash }]
               ++ (s.mlink.tracker_urls.map makeTracker).flatMap
                    (fun t => [Effect.newTracker t, Effect.trackerStart t])
               ++ (if b2 then [Effect.newDHTPeerSource (makeDHTPeerSource s),
                               Effect.dhtStart (makeDHTPeerSource s)] else [])
               ++ [Effect.pmanStart { tor := s.mlink.info_hash } false])
      ∧ running (start b2 (stop (start b1 s).1).1).1 = true
      ∧ start b2 (start b2 (stop (start b1 s).1).1).1
          = ((start b2 (stop (start b1 s).1).1).1, []) := by
  have h1 : running (stop (start b1 s).1).1 = false := stop_not_running _
  have hs : (stop (start b1 s).1).1
      = { s with pman := none, trackers := [], dht_ps := none } := by
    rw [stop_of_running _ (start_running b1 s)]
    unfold start
    split <;> rfl
  refine ⟨h1, ?_, start_running _ _, start_of_running _ _ (start_running _ _)⟩
  rw [hs]
  simp [start, running, makeDHTPeerSource]


theorem dhtStarted_of_channel (s : MagnetDownloader) (d : DHTPeerSource)
    (h : s.dht_ps = some d) : dhtStarted s = (s, []) := by
  simp [dhtStarted, h]

theorem dhtStartedTimes_of_channel (n : Nat) (s : MagnetDownloader) (d : DHTPeerSource)
    (h : s.dht_ps = some d) : dhtStartedTimes n s = (s, []) := by
  induction n with
  | zero => rfl
  | succ n ih => simp [dhtStartedTimes, dhtStarted_of_channel s d h, ih]

/-- C6: on a running session, `dhtStarted` creates and starts exactly one DHT
peer source when there is none (and any number of repeated `dhtStarted` events
does no more than the first) and changes nothing when there is one; `dhtStopped`
stops and deletes the DHT peer source when there is one and changes nothing
otherwise; on a session that is not running both are no-ops; neither emits
`foundMetadata`. -/
theorem dht_events_on_session (s : MagnetDownloader) :
    (running s = true →
      (s.dht_ps = none →
        dhtStarted s
          = ({ s with dht_ps := some (makeDHTPeerSource s) },
             [Effect.newDHTPeerSource (makeDHTPeerSource s),
              Effect.dhtStart (makeDHTPeerSource s)])
        ∧ ∀ n : Nat, dhtStartedTimes (n + 1) s = dhtStarted s)
      ∧ (∀ d, s.dht_ps = some d →
          (∀ n : Nat, dhtStartedTimes n s = (s, []))
          ∧ dhtStarted s = (s, [])
          ∧ dhtStopped s
              = ({ s with dht_ps := none }, [Effect.dhtStop d, Effect.dhtDelete d]))
      ∧ (s.dht_ps = none → dhtStopped s = (s, [])))
    ∧ (running s = false → dhtStarted s = (s, []) ∧ dhtStopped s = (s, []))
    ∧ emitted (dhtStarted s).2 = [] ∧ emitted (dhtStopped s).2 = [] := by
  refine ⟨?_, ?_, ?_, ?_⟩
  · intro hr
    refine ⟨?_, ?_, ?_⟩
    · intro hn
      have h1 : dhtStarted s
          = ({ s with dht_ps := some (makeDHTPeerSource s) },
             [Effect.newDHTPeerSource (makeDHTPeerSource s),
              Effect.dhtStart (makeDHTPeerSource s)]) := by
        simp [dhtStarted, hr, hn]
      refine ⟨h1, ?_⟩
      intro n
      simp only [dhtStartedTimes]
      rw [dhtStartedTimes_of_channel n (dhtStarted s).1 (makeDHTPeerSource s) (by rw [h1])]
      simp
    · intro d hd
      refine ⟨fun n => dhtStartedTimes_of_channel n s d hd, dhtStarted_of_channel s d hd, ?_⟩
      simp [dhtStopped, hr, hd]
    · intro hn
      simp [dhtStopped, hr, hn]
  · intro hr
    constructor
    · simp [dhtStarted, hr]
    · simp [dhtStopped, hr]
  · unfold dhtStarted
    split <;> simp [emitted]
  · unfold dhtStopped
    split <;> simp [emitted]


/-- Witness for C6: the running example session has no DHT peer source; the
first `dhtStarted` creates it and three in a row do no more. -/
theorem dht_events_on_session_witness :
    dhtStarted exampleRunning
        = ({ exampleRunning with dht_ps := some (makeDHTPeerSource exampleRunning) },
           [Effect.newDHTPeerSource (makeDHTPeerSource exampleRunning),
            Effect.dhtStart (makeDHTPeerSource exampleRunning)])
      ∧ dhtStartedTimes 3 exampleRunning = dhtStarted exampleRunning :=
  ⟨(((dht_events_on_session exampleRunning).1 (by decide)).1 (by decide)).1,
   (((dht_events_on_session exampleRunning).1 (by decide)).1 (by decide)).2 2⟩

theorem handle_running_pman (lib : Library) (o : Op) (s : MagnetDownloader) :
    (∀ d, o ≠ Op.start d) → o ≠ Op.stop → (handle lib o s).1.pman = s.pman := by
  intro h1 h2
  cases o with
  | start b => exact absurd rfl (h1 b)
  | stop => exact absurd rfl h2
  | update => simp only [handle, update]; split <;> rfl
  | onNewPeer p => simp only [handle, onNewPeer]; split <;> rfl
  | onMetadataDownloaded d =>
    simp only [handle, onMetadataDownloaded]
    split
    · rfl
    · split <;> rfl
  | onTorrentDownloaded j =>
    simp only [handle, onTorrentDownloaded]
    split
    · rfl
    · split
      · rfl
      · split
        · rfl
        · simp only [onMetadataDownloaded]
          split
          · rfl
          · split <;> rfl
  | dhtStarted => simp only [handle, dhtStarted]; split <;> rfl
  | dhtStopped => simp only [handle, dhtStopped]; split <;> rfl

theorem handle_channels (lib : Library) (o : Op) (s : MagnetDownloader) :
    (∀ d, o ≠ Op.start d) → o ≠ Op.stop → o ≠ Op.dhtStarted → o ≠ Op.dhtStopped →
    (handle lib o s).1.trackers = s.trackers ∧ (handle lib o s).1.dht_ps = s.dht_ps := by
  intro h1 h2 h3 h4
  cases o with
  | start b => exact absurd rfl (h1 b)
  | stop => exact absurd rfl h2
  | update => simp only [handle, update]; split <;> exact ⟨rfl, rfl⟩
  | onNewPeer p => simp only [handle, onNewPeer]; split <;> exact ⟨rfl, rfl⟩
  | onMetadataDownloaded d =>
    simp only [handle, onMetadataDownloaded]
    split
    · exact ⟨rfl, rfl⟩
    · split <;> exact ⟨rfl, rfl⟩
  | onTorrentDownloaded j =>
    simp only [handle, onTorrentDownloaded]
    split
    · exact ⟨rfl, rfl⟩
    · split
      · exact ⟨rfl, rfl⟩
      · split
        · exact ⟨rfl, rfl⟩
        · simp only [onMetadataDownloaded]
          split
          · exact ⟨rfl, rfl⟩
          · split <;> exact ⟨rfl, rfl⟩
  | dhtStarted => exact absurd rfl h3
  | dhtStopped => exact absurd rfl h4

theorem dhtStarted_pman (s : MagnetDownloader) : (dhtStarted s).1.pman = s.pman := by
  unfold dhtStarted
  split <;> rfl

theorem dhtStopped_pman (s : MagnetDownloader) : (dhtStopped s).1.pman = s.pman := by
  unfold dhtStopped
  split <;> rfl

theorem dhtStarted_of_not_running (s : MagnetDownloader) (h : running s = false) :
    dhtStarted s = (s, []) := by
  simp [dhtStarted, h]

theorem dhtStopped_of_not_running (s : MagnetDownloader) (h : running s = false) :
    dhtStopped s = (s, []) := by
  simp [dhtStopped, h]

theorem handle_noChannelUnlessRunning (lib : Library) (o : Op) (s : MagnetDownloader)
    (h : NoChannelUnlessRunning s) :
    NoChannelUnlessRunning (handle lib o s).1 := by
  by_cases hs : ∃ b, o = Op.start b
  · obtain ⟨b, rfl⟩ := hs
    intro hr
    simp [handle, start_running] at hr
  by_cases ht : o = Op.stop
  · subst ht
    intro _
    simp only [handle, stop]
    cases hp : s.pman with
    | none => exact h (by simp [running, hp])
    | some pm => exact ⟨rfl, rfl⟩
  by_cases h3 : o = Op.dhtStarted
  · subst h3
    intro hr
    have hr0 : running s = false := by
      simpa [handle, running, dhtStarted_pman] using hr
    simp only [handle, dhtStarted_of_not_running s hr0]
    exact h hr0
  by_cases h4 : o = Op.dhtStopped
  · subst h4
    intro hr
    have hr0 : running s = false := by
      simpa [handle, running, dhtStopped_pman] using hr
    simp only [handle, dhtStopped_of_not_running s hr0]
    exact h hr0
  · have hs1 : ∀ d, o ≠ Op.start d := fun d hd => hs ⟨d, hd⟩
    intro hr
    have hp := handle_running_pman lib o s hs1 ht
    obtain ⟨c1, c2⟩ := handle_channels lib o s hs1 ht h3 h4
    rw [c1, c2]
    exact h (by simpa [running, hp] using hr)

theorem run_noChannelUnlessRunning (lib : Library) (os : List Op) (s : MagnetDownloader)
    (h : NoChannelUnlessRunning s) :
    NoChannelUnlessRunning (run lib os s).1 := by
  induction os generalizing s with
  | nil => exact h
  | cons o os ih => exact ih _ (handle_noChannelUnlessRunning lib o s h)

theorem step_channelTracksTable (lib : Library) (st : WorldStep) (w : World)
    (hi : NoChannelUnlessRunning w.session) (ht : ChannelTracksTable w) :
    ChannelTracksTable (World.step lib st w) := by
  intro hr
  cases st with
  | start =>
    simp only [World.step, WorldStep.toOp, WorldStep.table, handle] at hr ⊢
    by_cases h0 : running w.session = true
    · simp only [start_of_running _ _ h0]
      exact ht h0
    · have h1 : running w.session = false := by simpa using h0
      obtain ⟨_, hd⟩ := hi h1
      cases hb : w.dht_running <;> simp [start, h1, hd]
  | stop =>
    simp only [World.step, WorldStep.toOp, handle] at hr
    rw [stop_not_running] at hr
    exact absurd hr (by decide)
  | tableStarted =>
    simp only [World.step, WorldStep.toOp, WorldStep.table, handle] at hr ⊢
    have h0 : running w.session = true := by
      simpa [running, dhtStarted_pman] using hr
    cases hd : w.session.dht_ps <;> simp [dhtStarted, h0, hd]
  | tableStopped =>
    simp only [World.step, WorldStep.toOp, WorldStep.table, handle] at hr ⊢
    have h0 : running w.session = true := by
      simpa [running, dhtStopped_pman] using hr
    cases hd : w.session.dht_ps <;> simp [dhtStopped, h0, hd]
  | update =>
    have hp := handle_running_pman lib Op.update w.session (by simp) (by simp)
    have hc := (handle_channels lib Op.update w.session (by simp) (by simp) (by simp) (by simp)).2
    simp only [World.step, WorldStep.toOp, WorldStep.table] at hr ⊢
    rw [hc]
    exact ht (by simpa [running, hp] using hr)
  | onNewPeer p =>
    have hp := handle_running_pman lib (Op.onNewPeer p) w.session (by simp) (by simp)
    have hc := (handle_channels lib (Op.onNewPeer p) w.session
      (by simp) (by simp) (by simp) (by simp)).2
    simp only [World.step, WorldStep.toOp, WorldStep.table] at hr ⊢
    rw [hc]
    exact ht (by simpa [running, hp] using hr)
  | onMetadataDownloaded d =>
    have hp := handle_running_pman lib (Op.onMetadataDownloaded d) w.session (by simp) (by simp)
    have hc := (handle_channels lib (Op.onMetadataDownloaded d) w.session
      (by simp) (by simp) (by simp) (by simp)).2
    simp only [World.step, WorldStep.toOp, WorldStep.table] at hr ⊢
    rw [hc]
    exact ht (by simpa [running, hp] using hr)
  | onTorrentDownloaded j =>
    have hp := handle_running_pman lib (Op.onTorrentDownloaded j) w.session (by simp) (by simp)
    have hc := (handle_channels lib (Op.onTorrentDownloaded j) w.session
      (by simp) (by simp) (by simp) (by simp)).2
    simp only [World.step, WorldStep.toOp, WorldStep.table] at hr ⊢
    rw [hc]
    exact ht (by simpa [running, hp] using hr)

theorem world_run_invariant (lib : Library) (sts : List WorldStep) (w : World)
    (hi : NoChannelUnlessRunning w.session) (ht : ChannelTracksTable w) :
    NoChannelUnlessRunning (World.run lib sts w).session
      ∧ ChannelTracksTable (World.run lib sts w) := by
  induction sts generalizing w with
  | nil => exact ⟨hi, ht⟩
  | cons st sts ih =>
    exact ih (World.step lib st w) (handle_noChannelUnlessRunning lib _ _ hi)
      (step_channelTracksTable lib st w hi ht)

/-- C7: in every state reached from construction by member functions and slots
of the session and by the table starting or stopping (its flag changes and the
matching slot `dhtStarted` or `dhtStopped` runs), a running session has a DHT
peer source exactly when the table's running flag is true. -/
theorem dht_channel_tracks_table (lib : Library) (mlink : MagnetLink) (table : Bool)
    (sts : List WorldStep)
    (hr : running
      (World.run lib sts { dht_running := table, session := create mlink }).session = true) :
    (World.run lib sts { dht_running := table, session := create mlink }).session.dht_ps.isSome
      = (World.run lib sts { dht_running := table, session := create mlink }).dht_running :=
  (world_run_invariant lib sts { dht_running := table, session := create mlink }
    (fun _ => ⟨rfl, rfl⟩) (fun h => by simp [create, running] at h)).2 hr

/-- Witness for C7: start with the table stopped, then the table starts, a peer
arrives, the table stops and starts again; the session is running at the end. -/
theorem dht_channel_tracks_table_witness :
    (World.run exampleLibrary exampleSteps
        { dht_running := false, session := create exampleLink }).session.dht_ps.isSome
      = (World.run exampleLibrary exampleSteps
        { dht_running := false, session := create exampleLink }).dht_running :=
  dht_channel_tracks_table exampleLibrary exampleLink false exampleSteps (by decide)

/-- C8: in every state reached from construction by any sequence of member
functions and slots, a session that is not running has an empty tracker list
and no DHT peer source. -/
theorem not_running_owns_no_channel (lib : Library) (mlink : MagnetLink) (os : List Op)
    (hr : running (run lib os (create mlink)).1 = false) :
    (run lib os (create mlink)).1.trackers = []
      ∧ (run lib os (create mlink)).1.dht_ps = none :=
  run_noChannelUnlessRunning lib os (create mlink) (fun _ => ⟨rfl, rfl⟩) hr


/-- Witness for C8: the example session is started with the table running, sees
the table stop and start, receives the matching metadata and is stopped. -/
theorem not_running_owns_no_channel_witness :
    (run exampleLibrary exampleOps (create exampleLink)).1.trackers = []
      ∧ (run exampleLibrary exampleOps (create exampleLink)).1.dht_ps = none :=
  not_running_owns_no_channel exampleLibrary exampleLink exampleOps (by decide)

/-- C9: `onNewPeer` kills the peer exactly when its `extension_protocol` flag
is false, connects to its `metadataDownloaded` signal exactly when the flag is
true, does exactly one of the two, and leaves the session unchanged. -/
theorem onNewPeer_kills_or_subscribes (p : Peer) (s : MagnetDownloader) :
    (onNewPeer p s).1 = s
      ∧ (Effect.peerKill p ∈ (onNewPeer p s).2 ↔ p.extension_protocol = false)
      ∧ (Effect.connectMetadataDownloaded p ∈ (onNewPeer p s).2 ↔ p.extension_protocol = true)
      ∧ (onNewPeer p s).2.length = 1 := by
  cases h : p.extension_protocol <;> simp [onNewPeer, h]

/-- C10: when the fallback fetch succeeded and the file loads with metadata
`M`, `onTorrentDownloaded` emits the same `foundMetadata` payloads, schedules
the same stops and leaves the same `found` flag as `onMetadataDownloaded M` in
that state: `foundMetadata` with `M` is emitted exactly when `found` was unset
and the hash of `M` equals the info hash, and nothing at all is emitted when
`found` was already set. -/
theorem fallback_file_same_as_peer_delivery (lib : Library) (s : MagnetDownloader)
    (j : KJob) (tor : Torrent) (he : j.error = 0) (hl : lib.load j.data = some tor) :
    emitted (onTorrentDownloaded lib (some j) s).2
        = emitted (onMetadataDownloaded lib tor.metadata s).2
      ∧ scheduledStops (onTorrentDownloaded lib (some j) s).2
        = scheduledStops (onMetadataDownloaded lib tor.metadata s).2
      ∧ (onTorrentDownloaded lib (some j) s).1.found
        = (onMetadataDownloaded lib tor.metadata s).1.found
      ∧ emitted (onTorrentDownloaded lib (some j) s).2
        = (if s.found = false ∧ lib.generate tor.metadata = s.mlink.info_hash
            then [tor.metadata] else [])
      ∧ (s.found = true → (onTorrentDownloaded lib (some j) s).2 = []) := by
  rw [onTorrentDownloaded_of_loaded lib j s tor he hl]
  have hi : (appendTiers tor.tiers s.mlink).info_hash = s.mlink.info_hash :=
    appendTiers_info_hash tor.tiers s.mlink
  cases hf : s.found
  · by_cases hm : lib.generate tor.metadata = s.mlink.info_hash
    · simp [onMetadataDownloaded, hf, hm, hi, emitted, scheduledStops]
    · simp [onMetadataDownloaded, hf, hm, hi, emitted, scheduledStops]
  · simp [onMetadataDownloaded, hf, emitted, scheduledStops]

/-- Witness for C10: the running example session receives a fallback file whose
metadata is `[1,2,3]`, the payload with the requested hash. -/
theorem fallback_file_same_as_peer_delivery_witness :
    emitted (onTorrentDownloaded exampleLibrary (some exampleJob) exampleRunning).2
      = [[1, 2, 3]] :=
  (fallback_file_same_as_peer_delivery exampleLibrary exampleRunning exampleJob
    { tiers := [[{ scheme := "udp", rest := "//t3" }]], metadata := [1, 2, 3] }
    rfl rfl).2.2.2.1

theorem filterMap_flatMap_calls {β : Type} (f : Effect → Option β) (g : Tracker → List Effect)
    (ts : List Tracker) :
    (ts.flatMap g).filterMap f = ts.flatMap (fun t => (g t).filterMap f) := by
  induction ts with
  | nil => rfl
  | cons t ts ih => simp [List.flatMap_cons, List.filterMap_append, ih]

theorem flatMap_one (ts : List Tracker) : ts.flatMap (fun t => [t]) = ts := by
  induction ts with
  | nil => rfl
  | cons t ts ih => simp [List.flatMap_cons, ih]

theorem flatMap_none {β : Type} (ts : List Tracker) :
    ts.flatMap (fun _ => ([] : List β)) = [] := by
  induction ts with
  | nil => rfl
  | cons t ts ih => simp [List.flatMap_cons, ih]

theorem start_of_not_running (b : Bool) (s : MagnetDownloader) (h : running s = false) :
    start b s
      = ({ s with
            pman := some { tor := s.mlink.info_hash },
            trackers := s.trackers ++ s.mlink.tracker_urls.map makeTracker,
            dht_ps := if b then some (makeDHTPeerSource s) else s.dht_ps },
         (if s.mlink.torrent.isEmpty then [] else [Effect.storedGet s.mlink.torrent])
           ++ [Effect.newPeerManager { tor := s.mlink.info_hash }]
           ++ (s.mlink.tracker_urls.map makeTracker).flatMap
                (fun t => [Effect.newTracker t, Effect.trackerStart t])
           ++ (if b then [Effect.newDHTPeerSource (makeDHTPeerSource s),
                           Effect.dhtStart (makeDHTPeerSource s)] else [])
           ++ [Effect.pmanStart { tor := s.mlink.info_hash } false]) := by
  simp [start, h]

/-- C11: `start()` on a session that is not running creates one tracker per
hint url, in hint order, the tracker for a url being a `UDPTracker` exactly when
the url's scheme is `udp` and an `HTTPTracker` for every other scheme, and
starts each of them; it creates and starts a DHT peer source exactly when the
table is running; it issues the fallback fetch exactly when the torrent url is
non-empty; and the session is running afterwards. -/
theorem start_creates_channels (b : Bool) (s : MagnetDownloader) (hr : running s = false) :
    (start b s).2.filterMap Effect.newTracker? = s.mlink.tracker_urls.map makeTracker
      ∧ (start b s).2.filterMap Effect.trackerStart? = s.mlink.tracker_urls.map makeTracker
      ∧ ((start b s).2.filterMap Effect.newTracker?).length = s.mlink.tracker_urls.length
      ∧ (∀ u : QUrl, (makeTracker u).url = u
          ∧ ((makeTracker u).kind = TrackerKind.udp ↔ u.scheme = "udp")
          ∧ ((makeTracker u).kind = TrackerKind.http ↔ u.scheme ≠ "udp"))
      ∧ (start b s).1.trackers = s.trackers ++ s.mlink.tracker_urls.map makeTracker
      ∧ (start b s).2.filterMap Effect.newDHTPeerSource?
          = (if b then [makeDHTPeerSource s] else [])
      ∧ (start b s).2.filterMap Effect.dhtStart?
          = (if b then [makeDHTPeerSource s] else [])
      ∧ (start b s).1.dht_ps = (if b then some (makeDHTPeerSource s) else s.dht_ps)
      ∧ (start b s).2.filterMap Effect.storedGet?
          = (if s.mlink.torrent.isEmpty then [] else [s.mlink.torrent])
      ∧ running (start b s).1 = true := by
  have hk : ∀ u : QUrl, (makeTracker u).url = u
      ∧ ((makeTracker u).kind = TrackerKind.udp ↔ u.scheme = "udp")
      ∧ ((makeTracker u).kind = TrackerKind.http ↔ u.scheme ≠ "udp") := by
    intro u
    unfold makeTracker
    by_cases h : u.scheme = "udp" <;> simp [h]
  rw [start_of_not_running b s hr]
  refine ⟨?_, ?_, ?_, hk, rfl, ?_, ?_, rfl, ?_, rfl⟩
  · cases b <;> cases ht : s.mlink.torrent.isEmpty <;>
      simp [List.filterMap_append, filterMap_flatMap_calls, Effect.newTracker?, flatMap_one]
  · cases b <;> cases ht : s.mlink.torrent.isEmpty <;>
      simp [List.filterMap_append, filterMap_flatMap_calls, Effect.trackerStart?, flatMap_one]
  · cases b <;> cases ht : s.mlink.torrent.isEmpty <;>
      simp [List.filterMap_append, filterMap_flatMap_calls, Effect.newTracker?, flatMap_one]
  · cases b <;> cases ht : s.mlink.torrent.isEmpty <;>
      simp [List.filterMap_append, filterMap_flatMap_calls, Effect.newDHTPeerSource?,
        flatMap_none]
  · cases b <;> cases ht : s.mlink.torrent.isEmpty <;>
      simp [List.filterMap_append, filterMap_flatMap_calls, Effect.dhtStart?, flatMap_none]
  · cases b <;> cases ht : s.mlink.torrent.isEmpty <;>
      simp [List.filterMap_append, filterMap_flatMap_calls, Effect.storedGet?, flatMap_none]

/-- Witness for C11: the example session is started with the table running. -/
theorem start_creates_channels_witness :
    (start true exampleSession).2.filterMap Effect.newTracker?
        = exampleSession.mlink.tracker_urls.map makeTracker
      ∧ running (start true exampleSession).1 = true :=
  ⟨(start_creates_channels true exampleSession (by decide)).1,
   (start_creates_channels true exampleSession (by decide)).2.2.2.2.2.2.2.2.2⟩

theorem stop_of_pman (s : MagnetDownloader) (pm : PeerManager) (h : s.pman = some pm) :
    stop s
      = ({ s with pman := none, trackers := [], dht_ps := none },
         s.trackers.flatMap (fun t => [Effect.trackerStop t, Effect.trackerDelete t])
           ++ (match s.dht_ps with
               | some d => [Effect.dhtStop d, Effect.dhtDelete d]
               | none => [])
           ++ [Effect.pmanStop pm, Effect.pmanDelete pm]) := by
  simp [stop, h]

/-- C12: `stop()` on a running session stops and deletes each of its trackers
exactly once, stops and deletes the DHT peer source if there is one, and stops
and deletes the peer manager; afterwards the tracker list is empty, there is no
DHT peer source and the session is not running, while the magnet link (info
hash, hint list) and the `found` flag are unchanged. -/
theorem stop_releases_everything (s : MagnetDownloader) (pm : PeerManager)
    (hr : s.pman = some pm) :
    (stop s).2.filterMap Effect.trackerStop? = s.trackers
      ∧ (stop s).2.filterMap Effect.trackerDelete? = s.trackers
      ∧ (stop s).2.filterMap Effect.dhtStop? = s.dht_ps.toList
      ∧ (stop s).2.filterMap Effect.dhtDelete? = s.dht_ps.toList
      ∧ (stop s).2.filterMap Effect.pmanStop? = [pm]
      ∧ (stop s).2.filterMap Effect.pmanDelete? = [pm]
      ∧ (stop s).1.trackers = []
      ∧ (stop s).1.dht_ps = none
      ∧ running (stop s).1 = false
      ∧ (stop s).1.mlink = s.mlink
      ∧ (stop s).1.found = s.found := by
  rw [stop_of_pman s pm hr]
  refine ⟨?_, ?_, ?_, ?_, ?_, ?_, rfl, rfl, rfl, rfl, rfl⟩
  · cases hd : s.dht_ps <;>
      simp [List.filterMap_append, filterMap_flatMap_calls, Effect.trackerStop?, flatMap_one]
  · cases hd : s.dht_ps <;>
      simp [List.filterMap_append, filterMap_flatMap_calls, Effect.trackerDelete?, flatMap_one]
  · cases hd : s.dht_ps <;>
      simp [List.filterMap_append, filterMap_flatMap_calls, Effect.dhtStop?, flatMap_none]
  · cases hd : s.dht_ps <;>
      simp [List.filterMap_append, filterMap_flatMap_calls, Effect.dhtDelete?, flatMap_none]
  · cases hd : s.dht_ps <;>
      simp [List.filterMap_append, filterMap_flatMap_calls, Effect.pmanStop?, flatMap_none]
  · cases hd : s.dht_ps <;>
      simp [List.filterMap_append, filterMap_flatMap_calls, Effect.pmanDelete?, flatMap_none]

/-- Witness for C12: the running example session is stopped. -/
theorem stop_releases_everything_witness :
    (stop exampleRunning).2.filterMap Effect.trackerStop? = exampleRunning.trackers
      ∧ (stop exampleRunning).1.trackers = [] :=
  ⟨(stop_releases_everything exampleRunning { tor := [6] } rfl).1,
   (stop_releases_everything exampleRunning { tor := [6] } rfl).2.2.2.2.2.2.1⟩

/-- C13: `start()` on a session that is already running is a no-op: the whole
object (peer manager, trackers, DHT peer source, hint list, `found`) is
unchanged and no call is made, so nothing is created or started and no fetch is
issued. -/
theorem start_on_running_is_no_op (b : Bool) (s : MagnetDownloader)
    (hr : running s = true) :
    (start b s).1 = s ∧ (start b s).2 = [] :=
  ⟨by rw [start_of_running b s hr], by rw [start_of_running b s hr]⟩

/-- Witness for C13: `start()` on the running example session. -/
theorem start_on_running_is_no_op_witness :
    (start true exampleRunning).1 = exampleRunning ∧ (start true exampleRunning).2 = [] :=
  start_on_running_is_no_op true exampleRunning (by decide)

/-- C14: when the fallback fetch ends with a transport error, or with bytes
that `Torrent::load` rejects, `onTorrentDownloaded` returns with the whole
object unchanged, emits no `foundMetadata`, schedules no stop, and its only
call is one line of log; the exception of `load` is caught inside. -/
theorem failed_fallback_changes_nothing (lib : Library) (j : KJob) (s : MagnetDownloader)
    (hfail : j.error ≠ 0 ∨ lib.load j.data = none) :
    (onTorrentDownloaded lib (some j) s).1 = s
      ∧ emitted (onTorrentDownloaded lib (some j) s).2 = []
      ∧ scheduledStops (onTorrentDownloaded lib (some j) s).2 = 0
      ∧ (onTorrentDownloaded lib (some j) s).2
          = (if j.error ≠ 0 then
              [Effect.out LogLevel.debug
                ("Failed to download " ++ j.url ++ ": " ++ j.errorString)]
             else
              [Effect.out LogLevel.notice ("Invalid torrent file from " ++ s.mlink.torrent)]) := by
  by_cases he : j.error = 0
  · have hl : lib.load j.data = none := by
      rcases hfail with h | h
      · exact absurd he h
      · exact h
    simp [onTorrentDownloaded, he, hl, emitted, scheduledStops]
  · simp [onTorrentDownloaded, he, emitted, scheduledStops]

/-- Witness for C14: the fetch of the running example session times out. -/
theorem failed_fallback_changes_nothing_witness :
    (onTorrentDownloaded exampleLibrary (some exampleFailedJob) exampleRunning).1
        = exampleRunning
      ∧ emitted (onTorrentDownloaded exampleLibrary (some exampleFailedJob) exampleRunning).2
        = [] :=
  ⟨(failed_fallback_changes_nothing exampleLibrary exampleFailedJob exampleRunning
      (Or.inl (by decide))).1,
   (failed_fallback_changes_nothing exampleLibrary exampleFailedJob exampleRunning
      (Or.inl (by decide))).2.1⟩

theorem appendTiers_eq (ts : List (List QUrl)) (m : MagnetLink) :
    appendTiers ts m = { m with tracker_urls := m.tracker_urls ++ ts.flatten } := by
  induction ts generalizing m with
  | nil => simp [appendTiers]
  | cons urls next ih => simp [appendTiers, ih, List.append_assoc]

/-- C15: when the fallback file loads with tracker tiers `T1..Tk`, the hint list
afterwards is the previous list followed by the urls of `T1`, ..., `Tk`, in
order and with duplicates kept, and the trackers of the session are unchanged:
no tracker is created or started for a merged url. -/
theorem fallback_trackers_appended (lib : Library) (j : KJob) (s : MagnetDownloader)
    (tor : Torrent) (he : j.error = 0) (hl : lib.load j.data = some tor) :
    (onTorrentDownloaded lib (some j) s).1.mlink.tracker_urls
        = s.mlink.tracker_urls ++ tor.tiers.flatten
      ∧ (onTorrentDownloaded lib (some j) s).1.trackers = s.trackers
      ∧ (onTorrentDownloaded lib (some j) s).2.filterMap Effect.newTracker? = []
      ∧ (onTorrentDownloaded lib (some j) s).2.filterMap Effect.trackerStart? = [] := by
  rw [onTorrentDownloaded_of_loaded lib j s tor he hl, appendTiers_eq]
  unfold onMetadataDownloaded
  split
  · simp
  · split <;> simp [Effect.newTracker?, Effect.trackerStart?]

/-- Witness for C15: the example fallback file, with one tier of one url. -/
theorem fallback_trackers_appended_witness :
    (onTorrentDownloaded exampleLibrary (some exampleJob) exampleRunning).1.trackers
      = exampleRunning.trackers :=
  (fallback_trackers_appended exampleLibrary exampleJob exampleRunning
    { tiers := [[{ scheme := "udp", rest := "//t3" }]], metadata := [1, 2, 3] }
    rfl rfl).2.1

/-- C16: when a payload is accepted (`found` unset, hash equal to the info
hash), the handler sets `found`, then emits `foundMetadata` (the emitting
object already has `found` set), then schedules exactly one deferred `stop()`,
in that order, and does not stop synchronously: at return the running state,
the trackers, the DHT peer source and the peer manager are as before. -/
theorem accepted_payload_emits_then_schedules_stop (lib : Library) (d : QByteArray)
    (s : MagnetDownloader) (hf : s.found = false)
    (hm : lib.generate d = s.mlink.info_hash) :
    (onMetadataDownloaded lib d s).2
        = [Effect.out LogLevel.important "Metadata downloaded",
           Effect.foundMetadata { s with found := true } d,
           Effect.singleShotStop]
      ∧ (onMetadataDownloaded lib d s).1.found = true
      ∧ scheduledStops (onMetadataDownloaded lib d s).2 = 1
      ∧ running (onMetadataDownloaded lib d s).1 = running s
      ∧ (onMetadataDownloaded lib d s).1.trackers = s.trackers
      ∧ (onMetadataDownloaded lib d s).1.dht_ps = s.dht_ps
      ∧ (onMetadataDownloaded lib d s).1.pman = s.pman := by
  rw [onMetadataDownloaded_of_match lib d s hf hm]
  exact ⟨rfl, rfl, by simp [scheduledStops], rfl, rfl, rfl, rfl⟩

/-- Witness for C16: the running example session receives `[1,2,3]`. -/
theorem accepted_payload_emits_then_schedules_stop_witness :
    scheduledStops (onMetadataDownloaded exampleLibrary [1, 2, 3] exampleRunning).2 = 1
      ∧ running (onMetadataDownloaded exampleLibrary [1, 2, 3] exampleRunning).1
        = running exampleRunning :=
  ⟨(accepted_payload_emits_then_schedules_stop exampleLibrary [1, 2, 3] exampleRunning
      (by decide) (by decide)).2.2.1,
   (accepted_payload_emits_then_schedules_stop exampleLibrary [1, 2, 3] exampleRunning
      (by decide) (by decide)).2.2.2.1⟩

/-- C17: in every state of the session, `bytesDownloaded()`, `bytesUploaded()`
and `bytesLeft()` return 0 and `isPartialSeed()` returns false, and the object
is unchanged. -/
theorem byte_queries_are_constant (s : MagnetDownloader) :
    bytesDownloaded s = (0, s) ∧ bytesUploaded s = (0, s) ∧ bytesLeft s = (0, s)
      ∧ isPartialSeed s = (false, s) :=
  ⟨rfl, rfl, rfl, rfl⟩

/-- C18: `onMetadataDownloaded` does not consult the running state: for every
session whose `found` flag is unset, running or not, a payload whose hash equals
the info hash is emitted with `foundMetadata` and `found` is set; and two
sessions with the same `found` flag and info hash give the same emission, the
same scheduled stops and the same `found` flag for a payload, whatever their
peer manager, trackers and DHT peer source, which the handler leaves alone. -/
theorem metadata_handler_ignores_running (lib : Library) (d : QByteArray) :
    (∀ s : MagnetDownloader, s.found = false → lib.generate d = s.mlink.info_hash →
        emitted (onMetadataDownloaded lib d s).2 = [d]
          ∧ (onMetadataDownloaded lib d s).1.found = true)
      ∧ (∀ s t : MagnetDownloader, s.found = t.found →
          s.mlink.info_hash = t.mlink.info_hash →
          emitted (onMetadataDownloaded lib d s).2 = emitted (onMetadataDownloaded lib d t).2
            ∧ scheduledStops (onMetadataDownloaded lib d s).2
                = scheduledStops (onMetadataDownloaded lib d t).2
            ∧ (onMetadataDownloaded lib d s).1.found = (onMetadataDownloaded lib d t).1.found
            ∧ running (onMetadataDownloaded lib d s).1 = running s) := by
  constructor
  · intro s hf hm
    rw [onMetadataDownloaded_of_match lib d s hf hm]
    simp [emitted]
  · intro s t h1 h2
    cases hf : s.found
    · have hft : t.found = false := by rw [← h1]; exact hf
      by_cases hm : lib.generate d = s.mlink.info_hash
      · rw [onMetadataDownloaded_of_match lib d s hf hm,
          onMetadataDownloaded_of_match lib d t hft (by rw [← h2]; exact hm)]
        simp [emitted, scheduledStops, running]
      · rw [onMetadataDownloaded_of_mismatch lib d s hf hm,
          onMetadataDownloaded_of_mismatch lib d t hft (by rw [← h2]; exact hm)]
        simp [emitted, scheduledStops, hf, hft]
    · have hft : t.found = true := by rw [← h1]; exact hf
      rw [onMetadataDownloaded_of_found lib d s hf, onMetadataDownloaded_of_found lib d t hft]
      simp [hf, hft]

/-- Witness for C18: the example session, started and stopped, receives
`[1,2,3]`. -/
theorem metadata_handler_ignores_running_witness :
    emitted (onMetadataDownloaded exampleLibrary [1, 2, 3] exampleStopped).2 = [[1, 2, 3]]
      ∧ (onMetadataDownloaded exampleLibrary [1, 2, 3] exampleStopped).1.found = true :=
  (metadata_handler_ignores_running exampleLibrary [1, 2, 3]).1 exampleStopped
    (by decide) (by decide)

theorem write_of_stored_all (c : Libc) (f : File) (buf : List Nat) (size : Nat) (w : Fwrite)
    (fp : Nat) (hfp : f.fptr = some fp) (h : w.stored % 2 ^ 32 = size) :
    File.write c f buf size w = (Except.ok size, [FileCall.fwrite fp buf size]) := by
  unfold File.write
  rw [hfp]
  simp only [h, ne_eq, not_true_eq_false, if_false]

theorem write_of_stored_less (c : Libc) (f : File) (buf : List Nat) (size : Nat) (w : Fwrite)
    (fp : Nat) (hfp : f.fptr = some fp) (h : w.stored % 2 ^ 32 ≠ size) :
    File.write c f buf size w
      = (Except.error { msg := "Cannot write to " ++ f.file ++ ": " ++ c.strerror w.errno },
         [FileCall.fwrite fp buf size]
           ++ (if w.errno = c.ENOSPC then [FileCall.out LogLevel.important "Disk full !"]
               else [])) := by
  unfold File.write
  rw [hfp]
  simp only [h, ne_eq, not_false_eq_true, if_true]

/-- C19: `File::write` never returns a short count.  For a `Uint32` size and an
`fwrite` that stores at most `size` bytes: on an open file it returns normally
exactly when `fwrite` stored all `size` bytes, the value returned is then
`size`, and it throws an `Error` otherwise; with no open handle it returns 0
without throwing and without calling `fwrite`. -/
theorem write_never_returns_short_count (c : Libc) (f : File) (buf : List Nat) (size : Nat)
    (w : Fwrite) (hs : size < 2 ^ 32) (hw : w.stored ≤ size) :
    (∀ fp, f.fptr = some fp →
        ((∃ r, (File.write c f buf size w).1 = Except.ok r) ↔ w.stored = size)
          ∧ (∀ r, (File.write c f buf size w).1 = Except.ok r → r = size)
          ∧ (w.stored ≠ size → ∃ e, (File.write c f buf size w).1 = Except.error e)
          ∧ (File.write c f buf size w).2.head? = some (FileCall.fwrite fp buf size))
      ∧ (f.fptr = none → File.write c f buf size w = (Except.ok 0, [])) := by
  have hmod : w.stored % 2 ^ 32 = w.stored := Nat.mod_eq_of_lt (by omega)
  constructor
  · intro fp hfp
    by_cases h : w.stored = size
    · rw [write_of_stored_all c f buf size w fp hfp (by rw [hmod]; exact h)]
      refine ⟨⟨fun _ => h, fun _ => ⟨size, rfl⟩⟩, ?_, fun hne => absurd h hne, rfl⟩
      intro r hr
      exact (Except.ok.inj hr).symm
    · rw [write_of_stored_less c f buf size w fp hfp (by rw [hmod]; exact h)]
      refine ⟨⟨?_, fun hh => absurd hh h⟩, ?_, fun _ => ⟨_, rfl⟩, rfl⟩
      · rintro ⟨r, hr⟩
        cases hr
      · intro r hr
        cases hr
  · intro hfp
    unfold File.write
    rw [hfp]

/-- Witness for C19: four bytes written to the open example file. -/
theorem write_never_returns_short_count_witness :
    (∃ r, (File.write exampleLibc exampleFile [1, 2, 3, 4] 4 exampleFwrite).1 = Except.ok r)
      ↔ exampleFwrite.stored = 4 :=
  ((write_never_returns_short_count exampleLibc exampleFile [1, 2, 3, 4] 4 exampleFwrite
      (by decide) (by decide)).1 3 rfl).1

end bt
